import Mathlib

/-!
Verification of the selection / host-matching / bulk-deletion core of
oatmeal, a command-line cookie manager.  The definitions below are a
shallow embedding of the functions in `src/oatmeal.py`; the theorems
settle the specification claims about them.

Python strings are modelled as `String` (compared through their
character lists), Python lists as `List`, the sqlite cookie table as a
`List Cookie` of rows, and the mutable global state (cookie store,
whitelist, blacklist, current selection) as an explicit `St` record.
Python reference semantics for the selection (the full whitelist or
blacklist selection aliases the global list, while a host-filtered
selection is a fresh copy) is modelled by the `SelObj` type: `ref`
names the global list, `copy` carries its own list.  An uncaught
Python exception is modelled as `Except.error` with the exception
name; a normal return carries the command status code.
-/

/-- Python `pre in s` substring test (used by `sbh` / `swh`). -/
def pyIn (needle hay : String) : Bool :=
  decide (List.IsInfix needle.data hay.data)

/-- Python `s.startswith(pre)`. -/
def strStartsWith (s pre : String) : Bool :=
  pre.data.isPrefixOf s.data

/-- Python `s.endswith(suf)`. -/
def strEndsWith (s suf : String) : Bool :=
  suf.data.isSuffixOf s.data

/-- Embedding of `host_match` (oatmeal.py lines 780-787): a cookie host
matches a bw-list entry when they are equal, or when the entry starts
with a dot and the host ends with the entry as a literal suffix. -/
def host_match (c_host bw_host : String) : Bool :=
  if c_host = bw_host then true
  else if strStartsWith bw_host "." && strEndsWith c_host bw_host then true
  else false

/-- Embedding of `datetime_to_ts` (lines 773-777): seconds since the
Unix epoch shifted to the 1601 epoch and scaled to microseconds. -/
def datetime_to_ts (unixSeconds : Nat) : Nat :=
  (unixSeconds + 11644473600) * 1000000

/-- Python `s.split(sep)` on character lists: always returns at least
one (possibly empty) field. -/
def splitOnChar (sep : Char) : List Char → List (List Char)
  | [] => [[]]
  | c :: cs =>
    match splitOnChar sep cs with
    | [] => [[c]]
    | r :: rs => if c = sep then [] :: r :: rs else (c :: r) :: rs

/-- Python `int(s)` on a run of decimal digits. -/
def digitsToNat (s : List Char) : Nat :=
  s.foldl (fun n c => n * 10 + (c.toNat - 48)) 0

/-- The regex `^[0-9]+$`. -/
def isDigitRun (s : List Char) : Bool :=
  !s.isEmpty && s.all Char.isDigit

/-- The regex `^[0-9-]+$`. -/
def isRangeChars (s : List Char) : Bool :=
  !s.isEmpty && s.all (fun c => c.isDigit || c = '-')

/-- Outcome of validating the specs of a number range: an uncaught
exception (`fault`, from evaluating `len(None)`), a reported error, or
the accumulated one-based indices. -/
inductive PR where
  | fault : PR
  | err : String → PR
  | ok : List Nat → PR
deriving DecidableEq, Repr

/-- Validation of a single spec of `cmd_delete_by_number` (lines
351-366).  The selection length is passed lazily as an `Option`, since
Python only evaluates `len(selection.data)` when the short-circuiting
`or` reaches the bound check; with no selection that evaluation raises
(`fault`). -/
def parseSpec (bound : Option Nat) (spec : List Char) : PR :=
  if !(isRangeChars spec) then PR.err "invalid characters"
  else
    match splitOnChar '-' spec with
    | [a, b] =>
      if isDigitRun a && isDigitRun b then
        let first := digitsToNat a
        let last := digitsToNat b
        if first < 1 then PR.err "out of range"
        else
          match bound with
          | none => PR.fault
          | some n =>
            if last > n then PR.err "out of range"
            else PR.ok (List.range' first (last + 1 - first))
      else PR.err "invalid or unsupported"
    | _ =>
      if isDigitRun spec then
        let v := digitsToNat spec
        if v < 1 then PR.err "out of range"
        else
          match bound with
          | none => PR.fault
          | some n => if v > n then PR.err "out of range" else PR.ok [v]
      else PR.err "invalid or unsupported"

/-- The validation loop of `cmd_delete_by_number` (lines 348-366): all
specs are checked, and the first failure aborts before any deletion. -/
def parseSpecs (bound : Option Nat) : List (List Char) → PR
  | [] => PR.ok []
  | spec :: rest =>
    match parseSpec bound spec with
    | PR.fault => PR.fault
    | PR.err m => PR.err m
    | PR.ok xs =>
      match parseSpecs bound rest with
      | PR.fault => PR.fault
      | PR.err m => PR.err m
      | PR.ok ys => PR.ok (xs ++ ys)

/-- Insertion step for Python `sorted(xs, reverse=True)` on `Nat`. -/
def insertDesc (i : Nat) : List Nat → List Nat
  | [] => [i]
  | j :: l => if j ≤ i then i :: j :: l else j :: insertDesc i l

/-- Python `sorted(xs, reverse=True)` on `Nat` (the descending order of
a list of naturals is unique, so any correct sort is extensionally the
one Python produces). -/
def sortDesc : List Nat → List Nat
  | [] => []
  | i :: l => insertDesc i (sortDesc l)

/-- Keep the elements of a list whose running position (starting at
`k`) satisfies `p`. -/
def filterIdx (p : Nat → Bool) : List α → Nat → List α
  | [], _ => []
  | a :: l, k => if p k then a :: filterIdx p l (k + 1) else filterIdx p l (k + 1)

/-- Positions (counting from `k`) of the elements satisfying `p`: the
Python comprehension of `[i for i, c in enumerate(l) if p(c)]`. -/
def enumIdxs (p : α → Bool) : List α → Nat → List Nat
  | [], _ => []
  | a :: l, k => if p a then k :: enumIdxs p l (k + 1) else enumIdxs p l (k + 1)

/-- Python `enumerate(l)` starting at `k`. -/
def enumL : List α → Nat → List (Nat × α)
  | [], _ => []
  | a :: l, k => (k, a) :: enumL l (k + 1)

/-- A row of the sqlite `cookies` table, restricted to the fields the
core reads; `expires_utc` is the epoch-offset timestamp (0 for session
cookies). -/
structure Cookie where
  host_key : String
  name : String
  path : String
  expires_utc : Nat
deriving DecidableEq, Repr

/-- Which global host list an aliased selection refers to. -/
inductive Which where
  | wl : Which
  | bl : Which
deriving DecidableEq, Repr

/-- The object `selection.data` points at.  `ref` models Python
reference semantics: `sba` / `swa` store the global list object itself,
so mutating the selection mutates the global list; `copy` models the
fresh filtered list built by `sbh` / `swh`; `noSel` models the initial
`data=None, type=None` state. -/
inductive SelObj where
  | cookies : List Cookie → SelObj
  | ref : Which → SelObj
  | copy : Which → List String → SelObj
  | noSel : SelObj
deriving DecidableEq, Repr

/-- The mutable process state: the persistent cookie store, the two
global host lists, and the current selection. -/
structure St where
  store : List Cookie
  whitelist : List String
  blacklist : List String
  sel : SelObj
deriving DecidableEq, Repr

/-- Observable side effects of a delete command, in program order: a
`DELETE FROM cookies` statement, or a `del selection.data[i]`. -/
inductive Ev where
  | dbDelete : String → String → String → Ev
  | selRemove : Nat → Ev
deriving DecidableEq, Repr

/-- Result of running a command: the returned status (or the name of an
uncaught Python exception), the new state, and the event trace. -/
structure Out where
  rc : Except String Nat
  st : St
  tr : List Ev
deriving Repr

/-- Python `len(selection.data)`, `none` when `data` is `None` (where
Python would raise `TypeError`). -/
def selLen (s : St) : Option Nat :=
  match s.sel with
  | SelObj.cookies cs => some cs.length
  | SelObj.ref Which.wl => some s.whitelist.length
  | SelObj.ref Which.bl => some s.blacklist.length
  | SelObj.copy _ hs => some hs.length
  | SelObj.noSel => none

/-- Python `selection.type`. -/
def selTypeTag (s : St) : Option String :=
  match s.sel with
  | SelObj.cookies _ => some "cookies"
  | SelObj.ref Which.wl => some "whitelist"
  | SelObj.copy Which.wl _ => some "whitelist"
  | SelObj.ref Which.bl => some "blacklist"
  | SelObj.copy Which.bl _ => some "blacklist"
  | SelObj.noSel => none

/-- Embedding of `cookie_delete` (lines 549-559): one DELETE statement
per cookie, keyed on (host, name, path). -/
def dbDeleteMany (store : List Cookie) (cs : List Cookie) : List Cookie :=
  cs.foldl
    (fun st c =>
      st.filter (fun r =>
        !(r.host_key = c.host_key ∧ r.name = c.name ∧ r.path = c.path : Bool)))
    store

/-- Trace entry for the DELETE statement issued for one cookie. -/
def evDb (c : Cookie) : Ev :=
  Ev.dbDelete c.host_key c.name c.path

/-- The removal loop shared by the delete commands: Python
`for i in ds: del l[i]` together with its event trace (`ds` is already
sorted descending and zero-based by the callers).  `del l[i]` with
`i ≥ len(l)` raises IndexError: the third component reports that the
loop stopped with an uncaught exception, in which case the earlier
deletions remain applied and the trace is the truncated prefix. -/
def pyDelLoop (l : List α) (ds : List Nat) : List α × List Ev × Bool :=
  match ds with
  | [] => (l, ([], false))
  | i :: rest =>
    if i < l.length then
      let r := pyDelLoop (l.eraseIdx i) rest
      (r.1, (Ev.selRemove i :: r.2.1, r.2.2))
    else (l, ([], true))

/-- Embedding of `cmd_count` (lines 161-169): it calls
`len(selection.data)` unguarded, so with no selection it raises. -/
def cmd_count (s : St) : Out :=
  match selLen s with
  | none => Out.mk (Except.error "TypeError") s []
  | some _ => Out.mk (Except.ok 0) s []

/-- Embedding of `cmd_next_page` (lines 172-184), reduced to the cursor
arithmetic: arguments are the selection length, the page size and the
current page; the result is the new page and whether the boundary
warning was reported. -/
def cmd_next_page (len ps page : Nat) : Nat × Bool :=
  if len ≤ (page + 1) * ps then (page, true) else (page + 1, false)

/-- Embedding of `cmd_prev_page` (lines 186-197). -/
def cmd_prev_page (page : Nat) : Nat × Bool :=
  if page = 0 then (0, true) else (page - 1, false)

/-- The smallest page index `p` with `p * ps ≥ len` (the "last page" of
the specification). -/
def lastPage (len ps : Nat) : Nat :=
  (len + ps - 1) / ps

/-- Embedding of `cmd_select_blacklist_all` (lines 266-272): the
selection stores a reference to the global blacklist object. -/
def cmd_select_blacklist_all (s : St) : St :=
  St.mk s.store s.whitelist s.blacklist (SelObj.ref Which.bl)

/-- Embedding of `cmd_select_blacklist_by_host` (lines 275-286): the
selection stores a fresh list of the substring matches. -/
def cmd_select_blacklist_by_host (host : String) (s : St) : St :=
  St.mk s.store s.whitelist s.blacklist
    (SelObj.copy Which.bl (s.blacklist.filter (fun x => pyIn host x)))

/-- Embedding of `cmd_select_whitelist_all` (lines 289-295). -/
def cmd_select_whitelist_all (s : St) : St :=
  St.mk s.store s.whitelist s.blacklist (SelObj.ref Which.wl)

/-- Embedding of `cmd_select_whitelist_by_host` (lines 298-309). -/
def cmd_select_whitelist_by_host (host : String) (s : St) : St :=
  St.mk s.store s.whitelist s.blacklist
    (SelObj.copy Which.wl (s.whitelist.filter (fun x => pyIn host x)))

/-- The pair of lists written to disk by `shutdown` (lines 621-629). -/
def shutdown_saved (s : St) : List String × List String :=
  (s.whitelist, s.blacklist)

/-- Embedding of `cmd_add_host` (lines 312-331): appends to the GLOBAL
list named by `selection.type`; with no selection the dict lookup
raises `KeyError`. -/
def cmd_add_host (s : St) (arg : Option String) : Out :=
  match arg with
  | none => Out.mk (Except.ok 1) s []
  | some h =>
    match selTypeTag s with
    | none => Out.mk (Except.error "KeyError") s []
    | some t =>
      if t = "cookies" then Out.mk (Except.ok 1) s []
      else if t = "blacklist" then
        if h ∈ s.blacklist then Out.mk (Except.ok 1) s []
        else Out.mk (Except.ok 0)
          (St.mk s.store s.whitelist (s.blacklist ++ [h]) s.sel) []
      else
        if h ∈ s.whitelist then Out.mk (Except.ok 1) s []
        else Out.mk (Except.ok 0)
          (St.mk s.store (s.whitelist ++ [h]) s.blacklist s.sel) []

/-- Embedding of `cmd_delete_by_number` (lines 334-391): validate every
spec, then issue the DB deletions (cookie selections only), then remove
the one-based indices from the selection in descending order.  The
removal mutates whatever object `selection.data` references. -/
def cmd_delete_by_number (s : St) (arg : Option String) : Out :=
  match arg with
  | none => Out.mk (Except.ok 1) s []
  | some expr =>
    if expr = "" then Out.mk (Except.ok 1) s []
    else
      match parseSpecs (selLen s) (splitOnChar ',' expr.data) with
      | PR.fault => Out.mk (Except.error "TypeError") s []
      | PR.err _ => Out.mk (Except.ok 1) s []
      | PR.ok idxs =>
        let ds := (sortDesc idxs).map (fun i => i - 1)
        match s.sel with
        | SelObj.cookies cs =>
          let to_del := idxs.filterMap (fun i => cs[i - 1]?)
          let r := pyDelLoop cs ds
          Out.mk (if r.2.2 then Except.error "IndexError" else Except.ok 0)
            (St.mk (dbDeleteMany s.store to_del) s.whitelist s.blacklist
              (SelObj.cookies r.1))
            (to_del.map evDb ++ r.2.1)
        | SelObj.ref Which.wl =>
          let r := pyDelLoop s.whitelist ds
          Out.mk (if r.2.2 then Except.error "IndexError" else Except.ok 0)
            (St.mk s.store r.1 s.blacklist s.sel) r.2.1
        | SelObj.ref Which.bl =>
          let r := pyDelLoop s.blacklist ds
          Out.mk (if r.2.2 then Except.error "IndexError" else Except.ok 0)
            (St.mk s.store s.whitelist r.1 s.sel) r.2.1
        | SelObj.copy w hs =>
          let r := pyDelLoop hs ds
          Out.mk (if r.2.2 then Except.error "IndexError" else Except.ok 0)
            (St.mk s.store s.whitelist s.blacklist (SelObj.copy w r.1)) r.2.1
        | SelObj.noSel => Out.mk (Except.error "TypeError") s []

/-- Embedding of `cmd_delete_all` (lines 394-426): on a cookie
selection, whitelist-matching cookies are skipped, the rest are deleted
from the store and then from the selection in descending index order;
on a host-list selection the referenced list is cleared wholesale. -/
def cmd_delete_all (s : St) : Out :=
  match s.sel with
  | SelObj.cookies cs =>
    let idxs := enumIdxs
      (fun c => !(s.whitelist.any (fun w => host_match c.host_key w))) cs 0
    let to_del := (enumL cs 0).filterMap
      (fun pc => if pc.1 ∈ idxs then some pc.2 else none)
    let r := pyDelLoop cs (sortDesc idxs)
    Out.mk (if r.2.2 then Except.error "IndexError" else Except.ok 0)
      (St.mk (dbDeleteMany s.store to_del) s.whitelist s.blacklist
        (SelObj.cookies r.1))
      (to_del.map evDb ++ r.2.1)
  | SelObj.ref Which.wl =>
    Out.mk (Except.ok 0) (St.mk s.store [] s.blacklist s.sel) []
  | SelObj.ref Which.bl =>
    Out.mk (Except.ok 0) (St.mk s.store s.whitelist [] s.sel) []
  | SelObj.copy w _ =>
    Out.mk (Except.ok 0)
      (St.mk s.store s.whitelist s.blacklist (SelObj.copy w [])) []
  | SelObj.noSel => Out.mk (Except.error "TypeError") s []

/-- Embedding of `cmd_delete_by_expired` (lines 429-454): collects the
zero-based indices of the cookies with `expires_utc < now`, deletes
them from the store and then from the selection. -/
def cmd_delete_by_expired (now : Nat) (s : St) : Out :=
  match s.sel with
  | SelObj.cookies cs =>
    let idxs := enumIdxs (fun c => decide (c.expires_utc < now)) cs 0
    let to_del := idxs.filterMap (fun i => cs[i]?)
    let r := pyDelLoop cs (sortDesc idxs)
    Out.mk (if r.2.2 then Except.error "IndexError" else Except.ok 0)
      (St.mk (dbDeleteMany s.store to_del) s.whitelist s.blacklist
        (SelObj.cookies r.1))
      (to_del.map evDb ++ r.2.1)
  | _ => Out.mk (Except.ok 1) s []

/-- The candidate index collection of `cmd_delete_by_blacklist` (lines
469-481): one-based indices, appended per blacklist entry, with the
whitelist override but WITHOUT deduplication. -/
def collectBl (bl wl : List String) (cs : List Cookie) : List Nat :=
  bl.foldl
    (fun acc b =>
      acc ++ (enumL cs 0).filterMap
        (fun pc =>
          if host_match pc.2.host_key b
              && !(wl.any (fun w => host_match pc.2.host_key w))
          then some (pc.1 + 1) else none))
    []

/-- Python `','.join(map(str, xs))`. -/
def joinComma (xs : List Nat) : String :=
  String.intercalate "," (xs.map (fun i => Nat.repr i))

/-- Embedding of `cmd_delete_by_blacklist` (lines 457-484): funnels the
collected one-based indices through `cmd_delete_by_number` as a
comma-joined string. -/
def cmd_delete_by_blacklist (s : St) : Out :=
  match s.sel with
  | SelObj.cookies _ =>
    match s.sel with
    | SelObj.cookies cs =>
      let idxs := collectBl s.blacklist s.whitelist cs
      if idxs.isEmpty then Out.mk (Except.ok 0) s []
      else cmd_delete_by_number s (some (joinComma idxs))
    | _ => Out.mk (Except.ok 1) s []
  | _ => Out.mk (Except.ok 1) s []

/-- Phase of a trace event: DB deletions are phase 0, selection
removals phase 1. -/
def evPhase : Ev → Nat
  | Ev.dbDelete _ _ _ => 0
  | Ev.selRemove _ => 1

/-- A trace is phase-ordered when no DB deletion occurs after a
selection removal: every store deletion is issued before any item is
removed from the in-memory selection. -/
def phaseOk (tr : List Ev) : Prop :=
  List.Pairwise (fun a b => evPhase a ≤ evPhase b) tr

/-- Demonstration cookies and states used by the concrete theorems. -/
def d1 : Cookie := Cookie.mk "a.com" "n1" "/" 0

def d2 : Cookie := Cookie.mk "b.com" "n2" "/" 0

def d3 : Cookie := Cookie.mk "c.com" "n3" "/" 0

def d4 : Cookie := Cookie.mk "d.com" "n4" "/" 0

def d5 : Cookie := Cookie.mk "e.com" "n5" "/" 0

/-- A five-cookie selection backed by a matching store. -/
def st5 : St := St.mk [d1, d2, d3, d4, d5] [] [] (SelObj.cookies [d1, d2, d3, d4, d5])

/-- A cookie matching two blacklist patterns. -/
def c4a : Cookie := Cookie.mk "t.ads.x.com" "a" "/" 5

/-- A whitelisted cookie. -/
def c4b : Cookie := Cookie.mk "w.com" "b" "/" 5

/-- State for the delete-by-blacklist scenario: `c4a` matches both
blacklist patterns, `c4b` matches the whitelist. -/
def stC4 : St := St.mk [c4a, c4b] ["w.com"] [".ads.x.com", ".x.com"] (SelObj.cookies [c4a, c4b])

/-- A session cookie (`expires_utc = 0`). -/
def sessCookie : Cookie := Cookie.mk ".x.com" "sid" "/" 0

/-- State holding only the session cookie. -/
def stC1 : St := St.mk [sessCookie] [] [] (SelObj.cookies [sessCookie])

/-- The state right after startup with `-e`: lists loaded, but no
selection made yet (`selection.data is None`). -/
def stNoSel : St := St.mk [d1] [] [] SelObj.noSel

/-- State with a two-entry blacklist and no selection. -/
def stBW : St := St.mk [] [] ["a.com", "b.com"] SelObj.noSel

/-- State whose selection aliases its three-entry global blacklist. -/
def stBW3 : St := St.mk [] [] ["a.com", "b.com", "c.com"] (SelObj.ref Which.bl)

theorem mem_insertDesc {x i : Nat} {l : List Nat} :
    x ∈ insertDesc i l ↔ x = i ∨ x ∈ l := by
  induction l with
  | nil => simp [insertDesc]
  | cons j t ih =>
    by_cases h : j ≤ i
    · simp [insertDesc, h]
    · simp [insertDesc, h, ih]
      tauto

theorem mem_sortDesc {x : Nat} {l : List Nat} :
    x ∈ sortDesc l ↔ x ∈ l := by
  induction l with
  | nil => simp [sortDesc]
  | cons i t ih => simp [sortDesc, mem_insertDesc, ih]

theorem pairwise_ge_insertDesc {i : Nat} {l : List Nat}
    (h : List.Pairwise (fun a b => b ≤ a) l) :
    List.Pairwise (fun a b => b ≤ a) (insertDesc i l) := by
  induction l with
  | nil => simp [insertDesc]
  | cons j t ih =>
    rcases List.pairwise_cons.mp h with ⟨hj, ht⟩
    by_cases hji : j ≤ i
    · simp only [insertDesc, if_pos hji]
      refine List.pairwise_cons.mpr ⟨?_, h⟩
      intro b hb
      rcases List.mem_cons.mp hb with hb | hb
      · omega
      · exact le_trans (hj b hb) hji
    · simp only [insertDesc, if_neg hji]
      refine List.pairwise_cons.mpr ⟨?_, ih ht⟩
      intro b hb
      rcases mem_insertDesc.mp hb with hb | hb
      · omega
      · exact hj b hb

theorem pairwise_ge_sortDesc (l : List Nat) :
    List.Pairwise (fun a b => b ≤ a) (sortDesc l) := by
  induction l with
  | nil => simp [sortDesc]
  | cons i t ih => exact pairwise_ge_insertDesc ih

theorem perm_insertDesc (i : Nat) (l : List Nat) :
    List.Perm (insertDesc i l) (i :: l) := by
  induction l with
  | nil => simp [insertDesc]
  | cons j t ih =>
    by_cases h : j ≤ i
    · simp [insertDesc, h]
    · simp only [insertDesc, if_neg h]
      exact (List.Perm.cons j ih).trans (List.Perm.swap i j t)

theorem perm_sortDesc (l : List Nat) : List.Perm (sortDesc l) l := by
  induction l with
  | nil => simp [sortDesc]
  | cons i t ih =>
    exact (perm_insertDesc i (sortDesc t)).trans (List.Perm.cons i ih)

theorem nodup_sortDesc {l : List Nat} (h : l.Nodup) :
    (sortDesc l).Nodup :=
  ((perm_sortDesc l).symm).nodup h

theorem pairwise_gt_sortDesc {l : List Nat} (h : l.Nodup) :
    List.Pairwise (fun a b => b < a) (sortDesc l) := by
  have h1 := pairwise_ge_sortDesc l
  have h2 : (sortDesc l).Nodup := nodup_sortDesc h
  have := List.Pairwise.and h1 h2
  exact this.imp (fun hab => by omega)

theorem filterIdx_congr (p q : Nat → Bool) (l : List α) (k : Nat)
    (h : ∀ j, k ≤ j → p j = q j) : filterIdx p l k = filterIdx q l k := by
  induction l generalizing k with
  | nil => rfl
  | cons a t ih =>
    have hk : p k = q k := h k (le_refl k)
    have ht : filterIdx p t (k + 1) = filterIdx q t (k + 1) :=
      ih (k + 1) (fun j hj => h j (by omega))
    simp [filterIdx, hk, ht]

theorem filterIdx_cons_true (p : Nat → Bool) (a : α) (l : List α) (k : Nat)
    (h : p k = true) : filterIdx p (a :: l) k = a :: filterIdx p l (k + 1) := by
  simp [filterIdx, h]

theorem filterIdx_cons_false (p : Nat → Bool) (a : α) (l : List α) (k : Nat)
    (h : p k = false) : filterIdx p (a :: l) k = filterIdx p l (k + 1) := by
  simp [filterIdx, h]

theorem filterIdx_true (p : Nat → Bool) (l : List α) (k : Nat)
    (h : ∀ j, k ≤ j → p j = true) : filterIdx p l k = l := by
  induction l generalizing k with
  | nil => rfl
  | cons a t ih =>
    have hk : p k = true := h k (le_refl k)
    simp [filterIdx, hk, ih (k + 1) (fun j hj => h j (by omega))]

theorem filterIdx_eraseIdx (p : Nat → Bool) (l : List α) (k d : Nat)
    (h : ∀ j, k + d ≤ j → p j = true) :
    filterIdx p (l.eraseIdx d) k
      = filterIdx (fun j => if j = k + d then false else p j) l k := by
  induction l generalizing k d with
  | nil => rfl
  | cons a t ih =>
    cases d with
    | zero =>
      rw [List.eraseIdx_cons_zero]
      rw [filterIdx_true p t k (fun j hj => h j (by omega))]
      rw [filterIdx_cons_false (fun j => if j = k + 0 then false else p j) a t k
        (by simp)]
      rw [filterIdx_true (fun j => if j = k + 0 then false else p j) t (k + 1)
        (fun j hj => by
          show (if j = k + 0 then false else p j) = true
          rw [if_neg (by omega : ¬ j = k + 0)]
          exact h j (by omega))]
    | succ d =>
      rw [List.eraseIdx_cons_succ]
      have hik := ih (k + 1) d (fun j hj => h j (by omega))
      have hcong : filterIdx (fun j => if j = k + 1 + d then false else p j) t (k + 1)
          = filterIdx (fun j => if j = k + (d + 1) then false else p j) t (k + 1) := by
        apply filterIdx_congr
        intro j hj
        by_cases hje : j = k + 1 + d
        · rw [if_pos hje, if_pos (by omega : j = k + (d + 1))]
        · rw [if_neg hje, if_neg (by omega : ¬ j = k + (d + 1))]
      by_cases hpk : p k = true
      · rw [filterIdx_cons_true p a (t.eraseIdx d) k hpk,
            filterIdx_cons_true (fun j => if j = k + (d + 1) then false else p j) a t k
              (by
                show (if k = k + (d + 1) then false else p k) = true
                rw [if_neg (by omega : ¬ k = k + (d + 1))]
                exact hpk),
            hik, hcong]
      · have hpk2 : p k = false := by revert hpk; cases p k <;> simp
        rw [filterIdx_cons_false p a (t.eraseIdx d) k hpk2,
            filterIdx_cons_false (fun j => if j = k + (d + 1) then false else p j) a t k
              (by
                show (if k = k + (d + 1) then false else p k) = false
                rw [if_neg (by omega : ¬ k = k + (d + 1))]
                exact hpk2),
            hik, hcong]

/-- Folding Python `del l[i]` over a strictly descending index list
removes exactly those positions. -/
theorem foldl_eraseIdx_eq_filterIdx (ds : List Nat) (l : List α)
    (h : List.Pairwise (fun a b => b < a) ds) :
    ds.foldl (fun acc i => acc.eraseIdx i) l
      = filterIdx (fun j => !(decide (j ∈ ds))) l 0 := by
  induction ds generalizing l with
  | nil =>
    simp only [List.foldl_nil]
    rw [filterIdx_true (fun j => !(decide (j ∈ ([] : List Nat)))) l 0
      (fun j hj => by simp)]
  | cons i rest ih =>
    rcases List.pairwise_cons.mp h with ⟨hlt, hrest⟩
    simp only [List.foldl_cons]
    rw [ih (l.eraseIdx i) hrest]
    rw [filterIdx_eraseIdx (fun j => !(decide (j ∈ rest))) l 0 i
      (fun j hj => by
        have hnm : j ∉ rest := fun hm => by have := hlt j hm; omega
        simp [hnm])]
    apply filterIdx_congr
    intro j hj
    by_cases hji : j = i
    · simp [hji]
    · simp [if_neg (by omega : ¬ j = 0 + i), hji]

theorem enumIdxs_ge {p : α → Bool} (l : List α) (k : Nat) :
    ∀ j ∈ enumIdxs p l k, k ≤ j := by
  induction l generalizing k with
  | nil => simp [enumIdxs]
  | cons a t ih =>
    intro j hj
    by_cases hp : p a
    · simp only [enumIdxs, if_pos hp] at hj
      rcases List.mem_cons.mp hj with hj | hj
      · omega
      · have := ih (k + 1) j hj; omega
    · simp only [enumIdxs, if_neg hp] at hj
      have := ih (k + 1) j hj; omega

theorem pairwise_lt_enumIdxs {p : α → Bool} (l : List α) (k : Nat) :
    List.Pairwise (fun a b => a < b) (enumIdxs p l k) := by
  induction l generalizing k with
  | nil => simp [enumIdxs]
  | cons a t ih =>
    by_cases hp : p a
    · simp only [enumIdxs, if_pos hp]
      refine List.pairwise_cons.mpr ⟨?_, ih (k + 1)⟩
      intro j hj
      have := enumIdxs_ge t (k + 1) j hj; omega
    · simp only [enumIdxs, if_neg hp]
      exact ih (k + 1)

theorem nodup_enumIdxs {p : α → Bool} (l : List α) (k : Nat) :
    (enumIdxs p l k).Nodup :=
  (pairwise_lt_enumIdxs l k).imp (fun h => by omega)

/-- Filtering by membership in the positions of the `p`-elements is
plain filtering by the negation of `p`. -/
theorem filterIdx_not_mem_enumIdxs (p : α → Bool) (l : List α) (k : Nat) :
    filterIdx (fun j => !(decide (j ∈ enumIdxs p l k))) l k
      = l.filter (fun a => !(p a)) := by
  induction l generalizing k with
  | nil => rfl
  | cons a t ih =>
    have hknot : k ∉ enumIdxs p t (k + 1) :=
      fun hm => by have := enumIdxs_ge t (k + 1) k hm; omega
    by_cases hp : p a = true
    · have hE : enumIdxs p (a :: t) k = k :: enumIdxs p t (k + 1) := by
        simp [enumIdxs, hp]
      have hstep : filterIdx (fun j => !(decide (j ∈ enumIdxs p (a :: t) k))) (a :: t) k
          = filterIdx (fun j => !(decide (j ∈ k :: enumIdxs p t (k + 1)))) (a :: t) k := by
        apply filterIdx_congr
        intro j hj
        rw [hE]
      rw [hstep]
      rw [filterIdx_cons_false (fun j => !(decide (j ∈ k :: enumIdxs p t (k + 1)))) a t k
        (by simp)]
      have hstep2 : filterIdx (fun j => !(decide (j ∈ k :: enumIdxs p t (k + 1)))) t (k + 1)
          = filterIdx (fun j => !(decide (j ∈ enumIdxs p t (k + 1)))) t (k + 1) := by
        apply filterIdx_congr
        intro j hj
        have hne : (j ∈ k :: enumIdxs p t (k + 1)) ↔ (j ∈ enumIdxs p t (k + 1)) := by
          rw [List.mem_cons]
          constructor
          · intro hc
            rcases hc with hc | hc
            · omega
            · exact hc
          · intro hc
            exact Or.inr hc
        rw [decide_eq_decide.mpr hne]
      rw [hstep2, ih (k + 1)]
      simp [hp]
    · have hp2 : p a = false := by revert hp; cases p a <;> simp
      have hE : enumIdxs p (a :: t) k = enumIdxs p t (k + 1) := by
        simp [enumIdxs, hp2]
      have hstep : filterIdx (fun j => !(decide (j ∈ enumIdxs p (a :: t) k))) (a :: t) k
          = filterIdx (fun j => !(decide (j ∈ enumIdxs p t (k + 1)))) (a :: t) k := by
        apply filterIdx_congr
        intro j hj
        rw [hE]
      rw [hstep]
      rw [filterIdx_cons_true (fun j => !(decide (j ∈ enumIdxs p t (k + 1)))) a t k
        (by simp [hknot])]
      rw [ih (k + 1)]
      simp [hp2]

theorem pairwise_of_true {R : α → α → Prop} (h : ∀ a b, R a b) (l : List α) :
    List.Pairwise R l := by
  induction l with
  | nil => exact List.Pairwise.nil
  | cons a t ih => exact List.pairwise_cons.mpr ⟨fun b _ => h a b, ih⟩

theorem phaseOk_nil : phaseOk [] := List.Pairwise.nil

theorem phaseOk_one_of_all (tr : List Ev) (h : ∀ e ∈ tr, evPhase e = 1) :
    phaseOk tr := by
  induction tr with
  | nil => exact List.Pairwise.nil
  | cons a t ih =>
    refine List.pairwise_cons.mpr ⟨?_, ih (fun e he => h e (List.mem_cons_of_mem a he))⟩
    intro b hb
    rw [h a (List.mem_cons_self a t), h b (List.mem_cons_of_mem a hb)]

theorem phaseOk_zero_map_append {f : α → Ev} (hf : ∀ a, evPhase (f a) = 0)
    (l1 : List α) (tr2 : List Ev) (h2 : ∀ e ∈ tr2, evPhase e = 1) :
    phaseOk (l1.map f ++ tr2) := by
  unfold phaseOk
  rw [List.pairwise_append]
  refine ⟨?_, phaseOk_one_of_all tr2 h2, ?_⟩
  · exact List.pairwise_map.mpr
      (pairwise_of_true (fun i j => by rw [hf i, hf j]) l1)
  · intro a ha b hb
    rcases List.mem_map.mp ha with ⟨c, _, hc⟩
    rw [← hc, hf c, h2 b hb]
    omega

theorem pyDelLoop_spec (ds : List Nat) (l : List α)
    (hdesc : List.Pairwise (fun a b => b < a) ds)
    (hlt : ∀ i ∈ ds, i < l.length) :
    pyDelLoop l ds
      = (ds.foldl (fun acc i => acc.eraseIdx i) l, (ds.map Ev.selRemove, false)) := by
  induction ds generalizing l with
  | nil => rfl
  | cons i rest ih =>
    have hi : i < l.length := hlt i (List.mem_cons_self i rest)
    rcases List.pairwise_cons.mp hdesc with ⟨hgt, hrest⟩
    have hlen : (l.eraseIdx i).length = l.length - 1 := by
      rw [List.length_eraseIdx]
      simp [hi]
    have hlt2 : ∀ j ∈ rest, j < (l.eraseIdx i).length := by
      intro j hj
      have := hgt j hj
      omega
    simp only [pyDelLoop, if_pos hi, ih (l.eraseIdx i) hrest hlt2]
    rfl

theorem pyDelLoop_events_one (ds : List Nat) (l : List α) :
    ∀ e ∈ (pyDelLoop l ds).2.1, evPhase e = 1 := by
  induction ds generalizing l with
  | nil => intro e he; exact absurd he (List.not_mem_nil e)
  | cons i rest ih =>
    intro e he
    by_cases hi : i < l.length
    · simp only [pyDelLoop, if_pos hi] at he
      rcases List.mem_cons.mp he with he | he
      · rw [he]; rfl
      · exact ih (l.eraseIdx i) e he
    · simp only [pyDelLoop, if_neg hi] at he
      exact absurd he (List.not_mem_nil e)

theorem parseSpec_some_ne_fault (n : Nat) (spec : List Char) :
    parseSpec (some n) spec ≠ PR.fault := by
  intro hcon
  unfold parseSpec at hcon
  repeat'
    first
      | exact PR.noConfusion hcon
      | split at hcon
      | dsimp only at hcon
  all_goals simp_all

theorem parseSpecs_err_of_spec_err {n : Nat} {specs : List (List Char)}
    {spec : List Char} {m : String}
    (hmem : spec ∈ specs) (hspec : parseSpec (some n) spec = PR.err m) :
    ∃ m2, parseSpecs (some n) specs = PR.err m2 := by
  induction specs with
  | nil => cases hmem
  | cons s0 rest ih =>
    rcases List.mem_cons.mp hmem with he | hm
    · exact ⟨m, by simp [parseSpecs, he ▸ hspec]⟩
    · cases h0 : parseSpec (some n) s0 with
      | fault => exact absurd h0 (parseSpec_some_ne_fault n s0)
      | err m0 => exact ⟨m0, by simp [parseSpecs, h0]⟩
      | ok xs =>
        rcases ih hm with ⟨m2, h2⟩
        exact ⟨m2, by simp [parseSpecs, h0, h2]⟩

theorem pairwise_desc_shifted (idxs : List Nat) (hnd : idxs.Nodup)
    (h1 : ∀ i ∈ idxs, 1 ≤ i) :
    List.Pairwise (fun a b => b < a) ((sortDesc idxs).map (fun i => i - 1)) := by
  rw [List.pairwise_map]
  refine List.Pairwise.imp_of_mem ?_ (pairwise_gt_sortDesc hnd)
  intro a b ha hb hab
  have h1a : 1 ≤ a := h1 a (mem_sortDesc.mp ha)
  have h1b : 1 ≤ b := h1 b (mem_sortDesc.mp hb)
  omega

theorem removeDesc_one_based (cs : List α) (idxs : List Nat)
    (hnd : idxs.Nodup) (hb : ∀ i ∈ idxs, 1 ≤ i ∧ i ≤ cs.length) :
    (pyDelLoop cs ((sortDesc idxs).map (fun i => i - 1))).1
      = filterIdx (fun j => !(decide ((j + 1) ∈ idxs))) cs 0 := by
  have h1 : ∀ i ∈ idxs, 1 ≤ i := fun i hi => (hb i hi).1
  have hlt : ∀ j ∈ (sortDesc idxs).map (fun i => i - 1), j < cs.length := by
    intro j hj
    rcases List.mem_map.mp hj with ⟨i, hi, hij⟩
    have := hb i (mem_sortDesc.mp hi)
    omega
  rw [pyDelLoop_spec _ cs (pairwise_desc_shifted idxs hnd h1) hlt]
  show ((sortDesc idxs).map (fun i => i - 1)).foldl (fun acc i => acc.eraseIdx i) cs = _
  rw [foldl_eraseIdx_eq_filterIdx _ cs (pairwise_desc_shifted idxs hnd h1)]
  apply filterIdx_congr
  intro j hj
  have hmem : (j ∈ (sortDesc idxs).map (fun i => i - 1)) ↔ ((j + 1) ∈ idxs) := by
    rw [List.mem_map]
    constructor
    · rintro ⟨i, hi, hji⟩
      have h1i : 1 ≤ i := h1 i (mem_sortDesc.mp hi)
      have hij : i = j + 1 := by omega
      exact hij ▸ mem_sortDesc.mp hi
    · intro hmm
      exact ⟨j + 1, mem_sortDesc.mpr hmm, by omega⟩
  rw [decide_eq_decide.mpr hmem]

theorem enumIdxs_lt (p : α → Bool) (l : List α) (k : Nat) :
    ∀ j ∈ enumIdxs p l k, j < k + l.length := by
  induction l generalizing k with
  | nil => intro j hj; exact absurd hj (List.not_mem_nil j)
  | cons a t ih =>
    intro j hj
    by_cases hp : p a
    · simp only [enumIdxs, if_pos hp] at hj
      rcases List.mem_cons.mp hj with hj | hj
      · simp [hj]
      · have := ih (k + 1) j hj
        simp only [List.length_cons]
        omega
    · simp only [enumIdxs, if_neg hp] at hj
      have := ih (k + 1) j hj
      simp only [List.length_cons]
      omega

theorem delLoop_enumIdxs (p : α → Bool) (cs : List α) :
    (pyDelLoop cs (sortDesc (enumIdxs p cs 0))).1 = cs.filter (fun a => !(p a)) := by
  have hlt : ∀ j ∈ sortDesc (enumIdxs p cs 0), j < cs.length := by
    intro j hj
    have := enumIdxs_lt p cs 0 j (mem_sortDesc.mp hj)
    omega
  rw [pyDelLoop_spec _ cs (pairwise_gt_sortDesc (nodup_enumIdxs cs 0)) hlt]
  show (sortDesc (enumIdxs p cs 0)).foldl (fun acc i => acc.eraseIdx i) cs = _
  rw [foldl_eraseIdx_eq_filterIdx _ cs (pairwise_gt_sortDesc (nodup_enumIdxs cs 0))]
  have hcong : filterIdx (fun j => !(decide (j ∈ sortDesc (enumIdxs p cs 0)))) cs 0
      = filterIdx (fun j => !(decide (j ∈ enumIdxs p cs 0))) cs 0 := by
    apply filterIdx_congr
    intro j hj
    rw [decide_eq_decide.mpr mem_sortDesc]
  rw [hcong, filterIdx_not_mem_enumIdxs]

theorem filterMap_get_enumIdxs (p : α → Bool) (cs pre : List α) :
    (enumIdxs p cs pre.length).filterMap (fun i => (pre ++ cs)[i]?) = cs.filter p := by
  induction cs generalizing pre with
  | nil => rfl
  | cons a t ih =>
    have hlen : pre.length + 1 = (pre ++ [a]).length := by simp
    have happ : pre ++ a :: t = (pre ++ [a]) ++ t := by simp
    have hrest : (enumIdxs p t (pre.length + 1)).filterMap
        (fun i => (pre ++ a :: t)[i]?) = t.filter p := by
      rw [happ, hlen]
      exact ih (pre ++ [a])
    by_cases hp : p a = true
    · have hE : enumIdxs p (a :: t) pre.length
          = pre.length :: enumIdxs p t (pre.length + 1) := by
        simp [enumIdxs, hp]
      have hget : (pre ++ a :: t)[pre.length]? = some a := by
        rw [List.getElem?_append_right (le_refl pre.length)]
        simp
      rw [hE, List.filterMap_cons, hget, hrest]
      simp [List.filter_cons, hp]
    · have hp2 : p a = false := by revert hp; cases p a <;> simp
      have hE : enumIdxs p (a :: t) pre.length = enumIdxs p t (pre.length + 1) := by
        simp [enumIdxs, hp2]
      rw [hE, hrest]
      simp [List.filter_cons, hp2]

theorem filterMap_get_enumIdxs_zero (p : α → Bool) (cs : List α) :
    (enumIdxs p cs 0).filterMap (fun i => cs[i]?) = cs.filter p := by
  have hgen := filterMap_get_enumIdxs p cs ([] : List α)
  simpa using hgen

theorem le_lastPage_iff {ps : Nat} (len : Nat) (hps : 1 ≤ ps) (q : Nat) :
    len ≤ q * ps ↔ lastPage len ps ≤ q := by
  unfold lastPage
  rw [Nat.div_le_iff_le_mul_add_pred hps, Nat.mul_comm ps q]
  generalize q * ps = m
  omega

/-- C3 counterexample: the pattern `.example.com` starts with a dot and
`example.com` equals the pattern minus its leading dot, yet
`host_match` rejects the pair — refuting the claimed disjunct
`h == p[1:]`. -/
theorem C3_counterexample :
    strStartsWith ".example.com" "." = true ∧
    "example.com".data = ".example.com".data.drop 1 ∧
    host_match "example.com" ".example.com" = false := by
  refine ⟨by decide, by decide, by decide⟩

/-- C3 (amended): `matches(h, h)` always holds; for a pattern starting
with `.`, `matches(h, p)` holds iff `h` ends with `p` as a literal
suffix (which covers `h == p` but NOT the bare domain `h == p[1:]`);
for a pattern not starting with `.`, `matches(h, p)` holds iff
`h == p`. -/
theorem C3_host_match_amended :
    (∀ h : String, host_match h h = true) ∧
    (∀ h p : String, strStartsWith p "." = true →
      host_match h p = strEndsWith h p) ∧
    (∀ h p : String, strStartsWith p "." = false →
      (host_match h p = true ↔ h = p)) := by
  refine ⟨?_, ?_, ?_⟩
  · intro h
    simp [host_match]
  · intro h p hs
    by_cases he : h = p
    · subst he
      have hsuf : strEndsWith h h = true := by
        unfold strEndsWith
        exact List.isSuffixOf_iff_suffix.mpr (List.suffix_refl h.data)
      simp [host_match, hsuf]
    · cases hE : strEndsWith h p <;> simp [host_match, he, hs, hE]
  · intro h p hs
    by_cases he : h = p
    · simp [host_match, he]
    · simp [host_match, he, hs]

/-- C3 witness: the amended characterization applied to the host
`a.x.com` and the dotted pattern `.x.com`. -/
theorem C3_witness :
    strStartsWith ".x.com" "." = true ∧
    host_match "a.x.com" ".x.com" = strEndsWith "a.x.com" ".x.com" ∧
    strStartsWith "x.com" "." = false ∧
    (host_match "a.x.com" "x.com" = true ↔ ("a.x.com" : String) = "x.com") := by
  refine ⟨by decide, C3_host_match_amended.2.1 "a.x.com" ".x.com" (by decide),
    by decide, C3_host_match_amended.2.2 "a.x.com" "x.com" (by decide)⟩

/-- C8: with page size at least 1 and the cursor within `[0, lastPage]`
(where `lastPage` is the least `p` with `p * pageSize ≥ length`, as the
first conjunct certifies), paging keeps the cursor within the interval;
advancing at or past the last page and retreating from page 0 both
leave the cursor unchanged and report the boundary warning. -/
theorem C8_pagination_boundary (len ps page : Nat) (hps : 1 ≤ ps)
    (hpage : page ≤ lastPage len ps) :
    (∀ q, len ≤ q * ps ↔ lastPage len ps ≤ q) ∧
    (cmd_next_page len ps page).1 ≤ lastPage len ps ∧
    (cmd_prev_page page).1 ≤ lastPage len ps ∧
    (lastPage len ps ≤ page → cmd_next_page len ps page = (page, true)) ∧
    (page = 0 → cmd_prev_page page = (0, true)) := by
  have hiff : ∀ q, len ≤ q * ps ↔ lastPage len ps ≤ q :=
    fun q => le_lastPage_iff len hps q
  refine ⟨hiff, ?_, ?_, ?_, ?_⟩
  · unfold cmd_next_page
    by_cases hc : len ≤ (page + 1) * ps
    · simpa [hc] using hpage
    · have hnot : ¬ lastPage len ps ≤ page + 1 :=
        fun hle => hc ((hiff (page + 1)).mpr hle)
      simp [hc]
      omega
  · unfold cmd_prev_page
    by_cases h0 : page = 0
    · simp [h0]
    · simp [h0]
      omega
  · intro hlp
    have h1 : len ≤ lastPage len ps * ps := (hiff (lastPage len ps)).mpr (le_refl _)
    have hcond : len ≤ (page + 1) * ps :=
      le_trans h1 (mul_le_mul_right' (by omega) ps)
    simp [cmd_next_page, hcond]
  · intro h0
    simp [cmd_prev_page, h0]

/-- C8 witness: length 5, page size 2 (so the last page index is 3):
advancing from page 3 warns and stays, advancing from page 1 moves to
page 2, retreating from page 0 warns and stays. -/
theorem C8_witness :
    1 ≤ 2 ∧ 3 ≤ lastPage 5 2 ∧
    cmd_next_page 5 2 3 = (3, true) ∧
    cmd_prev_page 0 = (0, true) ∧
    (cmd_next_page 5 2 1).1 ≤ lastPage 5 2 := by
  refine ⟨by decide, by decide,
    (C8_pagination_boundary 5 2 3 (by decide) (by decide)).2.2.2.1 (by decide),
    (C8_pagination_boundary 5 2 0 (by decide) (by decide)).2.2.2.2 rfl,
    (C8_pagination_boundary 5 2 1 (by decide) (by decide)).2.1⟩

/-- C9: evaluating the code on an unset selection (the state reached by
running commands via `-e` before any select command): `c` raises
`TypeError` from `len(None)`, `ah` raises `KeyError` from the dict
lookup on `selection.type = None`, and `dn 1` raises `TypeError` —
none of them reports a structured error. -/
theorem C9_unset_selection_raises :
    (cmd_count stNoSel).rc = Except.error "TypeError" ∧
    (cmd_add_host stNoSel (some "x.com")).rc = Except.error "KeyError" ∧
    (cmd_delete_by_number stNoSel (some "1")).rc = Except.error "TypeError" := by
  refine ⟨rfl, rfl, rfl⟩

/-- C2: evaluating the code on the range expression `2,2` over a
five-cookie selection: the duplicated index is NOT collapsed — the
command removes the cookie at position 2 and then, after the shift,
the distinct cookie originally at position 3, reporting success. -/
theorem C2_duplicate_index_removes_second_item :
    (cmd_delete_by_number st5 (some "2,2")).st.sel
      = SelObj.cookies [d1, d4, d5] ∧
    (cmd_delete_by_number st5 (some "2,2")).rc = Except.ok 0 ∧
    parseSpecs (some 5) (splitOnChar ',' "2,2".data) = PR.ok [2, 2] := by
  refine ⟨by decide, rfl, by decide⟩

/-- C4: evaluating delete-by-blacklist where cookie `c4a` matches two
blacklist patterns and cookie `c4b` matches the whitelist: the
duplicated candidate index 1 makes the removal loop delete `c4b` from
the selection as well (the store row for `c4b` survives), refuting
"whitelist-matching cookies are left in the selection". -/
theorem C4_whitelisted_cookie_dropped_from_selection :
    stC4.whitelist.any (fun w => host_match c4b.host_key w) = true ∧
    collectBl stC4.blacklist stC4.whitelist [c4a, c4b] = [1, 1] ∧
    (cmd_delete_by_blacklist stC4).st.sel = SelObj.cookies [] ∧
    (cmd_delete_by_blacklist stC4).st.store = [c4b] := by
  refine ⟨by decide, by decide, by decide, by decide⟩

/-- C1 counterexample: delete-expired at a positive current timestamp
removes the session cookie (`expires_utc = 0`) from both the selection
and the store, because the code tests `expires_utc < now` without
excluding 0 — refuting "session cookies are never removed". -/
theorem C1_counterexample :
    sessCookie.expires_utc = 0 ∧
    (cmd_delete_by_expired (datetime_to_ts 1760227200) stC1).st.sel
      = SelObj.cookies [] ∧
    (cmd_delete_by_expired (datetime_to_ts 1760227200) stC1).st.store = [] := by
  refine ⟨rfl, by decide, by decide⟩

theorem parse_empty_err (b : Option Nat) :
    parseSpecs b (splitOnChar ',' "".data) = PR.err "invalid characters" := rfl

/-- C5: if any spec of the range expression is invalid for the current
selection length (bad characters, malformed shape, or an index out of
`[1, length]`), `cmd_delete_by_number` reports status 1 and leaves the
whole state — store, lists and selection — untouched, even when other
specs were valid. -/
theorem C5_delete_by_number_atomic (s : St) (n : Nat) (expr : String)
    (spec : List Char) (m : String)
    (hlen : selLen s = some n)
    (hmem : spec ∈ splitOnChar ',' expr.data)
    (hspec : parseSpec (some n) spec = PR.err m) :
    cmd_delete_by_number s (some expr) = Out.mk (Except.ok 1) s [] := by
  by_cases hemp : expr = ""
  · simp [cmd_delete_by_number, hemp]
  · rcases parseSpecs_err_of_spec_err hmem hspec with ⟨m2, h2⟩
    simp [cmd_delete_by_number, hemp, hlen, h2]

/-- C5 witness: Scenario D — `dn 3,9` on a five-cookie selection: spec
`9` is out of range, the command returns status 1 and the state is
unchanged (so the valid spec `3` deleted nothing). -/
theorem C5_witness :
    selLen st5 = some 5 ∧
    ("9".data ∈ splitOnChar ',' "3,9".data) ∧
    parseSpec (some 5) "9".data = PR.err "out of range" ∧
    cmd_delete_by_number st5 (some "3,9") = Out.mk (Except.ok 1) st5 [] := by
  refine ⟨rfl, by decide, by decide,
    C5_delete_by_number_atomic st5 5 "3,9" "9".data "out of range" rfl
      (by decide) (by decide)⟩

/-- C6: for every selection (cookie list, aliased whitelist or
blacklist, or filtered copy) and every range expression parsing to a
duplicate-free set of valid one-based indices, the indices are
processed in strictly descending order and the remaining item sequence
is exactly the original items at the positions not in the set. -/
theorem C6_delete_by_number_removes_exactly (s : St) (n : Nat)
    (expr : String) (idxs : List Nat)
    (hlen : selLen s = some n)
    (hparse : parseSpecs (some n) (splitOnChar ',' expr.data) = PR.ok idxs)
    (hnd : idxs.Nodup)
    (hbound : ∀ i ∈ idxs, 1 ≤ i ∧ i ≤ n) :
    (∀ cs : List Cookie, s.sel = SelObj.cookies cs →
      (cmd_delete_by_number s (some expr)).st.sel
        = SelObj.cookies (filterIdx (fun j => !(decide ((j + 1) ∈ idxs))) cs 0)) ∧
    (s.sel = SelObj.ref Which.wl →
      (cmd_delete_by_number s (some expr)).st.whitelist
        = filterIdx (fun j => !(decide ((j + 1) ∈ idxs))) s.whitelist 0) ∧
    (s.sel = SelObj.ref Which.bl →
      (cmd_delete_by_number s (some expr)).st.blacklist
        = filterIdx (fun j => !(decide ((j + 1) ∈ idxs))) s.blacklist 0) ∧
    (∀ (w : Which) (hs : List String), s.sel = SelObj.copy w hs →
      (cmd_delete_by_number s (some expr)).st.sel
        = SelObj.copy w (filterIdx (fun j => !(decide ((j + 1) ∈ idxs))) hs 0)) ∧
    List.Pairwise (fun a b => b < a) ((sortDesc idxs).map (fun i => i - 1)) := by
  have h1 : ∀ i ∈ idxs, 1 ≤ i := fun i hi => (hbound i hi).1
  by_cases hemp : expr = ""
  · exfalso
    rw [hemp, parse_empty_err] at hparse
    exact PR.noConfusion hparse
  refine ⟨?_, ?_, ?_, ?_, pairwise_desc_shifted idxs hnd h1⟩
  · intro cs hsel
    have hn : n = cs.length := by
      simp [selLen, hsel] at hlen
      omega
    simp [cmd_delete_by_number, hemp, hlen, hparse, hsel,
      removeDesc_one_based cs idxs hnd (hn ▸ hbound)]
  · intro hsel
    have hn : n = s.whitelist.length := by
      simp [selLen, hsel] at hlen
      omega
    simp [cmd_delete_by_number, hemp, hlen, hparse, hsel,
      removeDesc_one_based s.whitelist idxs hnd (hn ▸ hbound)]
  · intro hsel
    have hn : n = s.blacklist.length := by
      simp [selLen, hsel] at hlen
      omega
    simp [cmd_delete_by_number, hemp, hlen, hparse, hsel,
      removeDesc_one_based s.blacklist idxs hnd (hn ▸ hbound)]
  · intro w hs hsel
    have hn : n = hs.length := by
      simp [selLen, hsel] at hlen
      omega
    simp [cmd_delete_by_number, hemp, hlen, hparse, hsel,
      removeDesc_one_based hs idxs hnd (hn ▸ hbound)]

/-- C6 witness: Scenario A — `dn 2,4-5` on a five-cookie selection
parses to `[2, 4, 5]` and leaves exactly the cookies originally at
positions 1 and 3 — and `dn 1,3` on the aliased three-entry blacklist
selection leaves exactly the entry originally at position 2. -/
theorem C6_witness :
    parseSpecs (some 5) (splitOnChar ',' "2,4-5".data) = PR.ok [2, 4, 5] ∧
    (cmd_delete_by_number st5 (some "2,4-5")).st.sel = SelObj.cookies [d1, d3] ∧
    parseSpecs (some 3) (splitOnChar ',' "1,3".data) = PR.ok [1, 3] ∧
    (cmd_delete_by_number stBW3 (some "1,3")).st.blacklist = ["b.com"] := by
  have hck := C6_delete_by_number_removes_exactly st5 5
    "2,4-5" [2, 4, 5] rfl (by decide) (by decide) (by decide)
  have hbw := C6_delete_by_number_removes_exactly stBW3 3
    "1,3" [1, 3] rfl (by decide) (by decide) (by decide)
  refine ⟨by decide, ?_, by decide, ?_⟩
  · exact (hck.1 [d1, d2, d3, d4, d5] rfl).trans (by decide)
  · exact (hbw.2.2.1 rfl).trans (by decide)

/-- C1 (amended): delete-expired removes from the selection and the
store exactly the cookies whose expiry timestamp is strictly below the
current epoch-offset time; since that time is always positive, session
cookies (expiry 0) are removed as well, and cookies with expiry ≥ now
are retained. -/
theorem C1_amended_delete_expired (s : St) (cs : List Cookie) (u : Nat)
    (hsel : s.sel = SelObj.cookies cs) :
    (cmd_delete_by_expired (datetime_to_ts u) s).st.sel
      = SelObj.cookies
          (cs.filter (fun c => !(decide (c.expires_utc < datetime_to_ts u)))) ∧
    (cmd_delete_by_expired (datetime_to_ts u) s).st.store
      = dbDeleteMany s.store
          (cs.filter (fun c => decide (c.expires_utc < datetime_to_ts u))) ∧
    0 < datetime_to_ts u := by
  refine ⟨?_, ?_, by unfold datetime_to_ts; omega⟩
  · simp [cmd_delete_by_expired, hsel, delLoop_enumIdxs]
  · simp [cmd_delete_by_expired, hsel, filterMap_get_enumIdxs_zero]

/-- C1 amended witness: the session cookie is filtered out (removed)
at the concrete timestamp, per the amended characterization. -/
theorem C1_amended_witness :
    stC1.sel = SelObj.cookies [sessCookie] ∧
    (cmd_delete_by_expired (datetime_to_ts 1760227200) stC1).st.sel
      = SelObj.cookies ([sessCookie].filter
          (fun c => !(decide (c.expires_utc < datetime_to_ts 1760227200)))) :=
  ⟨rfl, (C1_amended_delete_expired stC1 [sessCookie] 1760227200 rfl).1⟩

theorem phaseOk_dn (s : St) (arg : Option String) :
    phaseOk (cmd_delete_by_number s arg).tr := by
  cases arg with
  | none => exact phaseOk_nil
  | some expr =>
    by_cases hemp : expr = ""
    · simp only [cmd_delete_by_number, if_pos hemp]
      exact phaseOk_nil
    · cases hp : parseSpecs (selLen s) (splitOnChar ',' expr.data) with
      | fault =>
        simp [cmd_delete_by_number, hemp, hp]
        exact phaseOk_nil
      | err m =>
        simp [cmd_delete_by_number, hemp, hp]
        exact phaseOk_nil
      | ok idxs =>
        cases hsel : s.sel with
        | cookies cs =>
          simp [cmd_delete_by_number, hemp, hp, hsel]
          refine phaseOk_zero_map_append (fun a => ?_) _ _ (pyDelLoop_events_one _ _)
          rfl
        | ref w =>
          cases w with
          | wl =>
            simp [cmd_delete_by_number, hemp, hp, hsel]
            exact phaseOk_one_of_all _ (pyDelLoop_events_one _ _)
          | bl =>
            simp [cmd_delete_by_number, hemp, hp, hsel]
            exact phaseOk_one_of_all _ (pyDelLoop_events_one _ _)
        | copy w hs =>
          simp [cmd_delete_by_number, hemp, hp, hsel]
          exact phaseOk_one_of_all _ (pyDelLoop_events_one _ _)
        | noSel =>
          simp [cmd_delete_by_number, hemp, hp, hsel]
          exact phaseOk_nil

theorem phaseOk_da (s : St) : phaseOk (cmd_delete_all s).tr := by
  cases hsel : s.sel with
  | cookies cs =>
    simp [cmd_delete_all, hsel]
    refine phaseOk_zero_map_append (fun a => ?_) _ _ (pyDelLoop_events_one _ _)
    rfl
  | ref w =>
    cases w with
    | wl => simp [cmd_delete_all, hsel]; exact phaseOk_nil
    | bl => simp [cmd_delete_all, hsel]; exact phaseOk_nil
  | copy w hs => simp [cmd_delete_all, hsel]; exact phaseOk_nil
  | noSel => simp [cmd_delete_all, hsel]; exact phaseOk_nil

theorem phaseOk_de (now : Nat) (s : St) :
    phaseOk (cmd_delete_by_expired now s).tr := by
  cases hsel : s.sel with
  | cookies cs =>
    simp [cmd_delete_by_expired, hsel]
    refine phaseOk_zero_map_append (fun a => ?_) _ _ (pyDelLoop_events_one _ _)
    rfl
  | ref w => simp [cmd_delete_by_expired, hsel]; exact phaseOk_nil
  | copy w hs => simp [cmd_delete_by_expired, hsel]; exact phaseOk_nil
  | noSel => simp [cmd_delete_by_expired, hsel]; exact phaseOk_nil

theorem phaseOk_dbl (s : St) : phaseOk (cmd_delete_by_blacklist s).tr := by
  cases hsel : s.sel with
  | cookies cs =>
    by_cases hie : (collectBl s.blacklist s.whitelist cs).isEmpty = true
    · simp [cmd_delete_by_blacklist, hsel, hie]
      exact phaseOk_nil
    · simp [cmd_delete_by_blacklist, hsel, hie]
      exact phaseOk_dn s _
  | ref w => simp [cmd_delete_by_blacklist, hsel]; exact phaseOk_nil
  | copy w hs => simp [cmd_delete_by_blacklist, hsel]; exact phaseOk_nil
  | noSel => simp [cmd_delete_by_blacklist, hsel]; exact phaseOk_nil

/-- C7: in every delete command, all DB deletions appear in the event
trace before any in-memory selection removal, so a store failure
interrupting the command leaves the selection unchanged. -/
theorem C7_store_deletes_before_selection (s : St) (arg : Option String) (now : Nat) :
    phaseOk (cmd_delete_by_number s arg).tr ∧
    phaseOk (cmd_delete_all s).tr ∧
    phaseOk (cmd_delete_by_expired now s).tr ∧
    phaseOk (cmd_delete_by_blacklist s).tr :=
  ⟨phaseOk_dn s arg, phaseOk_da s, phaseOk_de now s, phaseOk_dbl s⟩

/-- C10: selecting the full blacklist aliases the global list, so for
a deletion that completes (a duplicate-free in-range index set, where
the removal loop raises no IndexError), deleting by number through
that selection changes the blacklist that `shutdown` saves, as does
adding a host; a host-filtered blacklist selection is a fresh copy, so
the same deletion leaves the saved blacklist untouched and only
shrinks the copy. -/
theorem C10_selection_aliasing (s : St) (expr : String) (idxs : List Nat)
    (h hh : String) (hnd : idxs.Nodup) :
    ((parseSpecs (some s.blacklist.length) (splitOnChar ',' expr.data)
        = PR.ok idxs) →
      (∀ i ∈ idxs, 1 ≤ i ∧ i ≤ s.blacklist.length) →
      (shutdown_saved (cmd_delete_by_number
          (cmd_select_blacklist_all s) (some expr)).st).2
        = filterIdx (fun j => !(decide ((j + 1) ∈ idxs))) s.blacklist 0) ∧
    (hh ∉ s.blacklist →
      (shutdown_saved (cmd_add_host (cmd_select_blacklist_all s) (some hh)).st).2
        = s.blacklist ++ [hh]) ∧
    ((parseSpecs (some (s.blacklist.filter (fun x => pyIn h x)).length)
        (splitOnChar ',' expr.data) = PR.ok idxs) →
      (∀ i ∈ idxs, 1 ≤ i ∧ i ≤ (s.blacklist.filter (fun x => pyIn h x)).length) →
      (shutdown_saved (cmd_delete_by_number
          (cmd_select_blacklist_by_host h s) (some expr)).st).2 = s.blacklist ∧
      (cmd_delete_by_number (cmd_select_blacklist_by_host h s) (some expr)).st.sel
        = SelObj.copy Which.bl
            (filterIdx (fun j => !(decide ((j + 1) ∈ idxs)))
              (s.blacklist.filter (fun x => pyIn h x)) 0)) := by
  refine ⟨?_, ?_, ?_⟩
  · intro hparse hb
    by_cases hemp : expr = ""
    · exfalso
      rw [hemp, parse_empty_err] at hparse
      exact PR.noConfusion hparse
    · simp [cmd_delete_by_number, hemp, hparse,
        cmd_select_blacklist_all, selLen, shutdown_saved,
        removeDesc_one_based s.blacklist idxs hnd hb]
  · intro hnb
    simp [cmd_add_host, cmd_select_blacklist_all, selTypeTag, shutdown_saved, hnb]
  · intro hparse hb
    by_cases hemp : expr = ""
    · exfalso
      rw [hemp, parse_empty_err] at hparse
      exact PR.noConfusion hparse
    · constructor
      · simp [cmd_delete_by_number, hemp, hparse,
          cmd_select_blacklist_by_host, selLen, shutdown_saved]
      · simp [cmd_delete_by_number, hemp, hparse,
          cmd_select_blacklist_by_host, selLen,
          removeDesc_one_based (s.blacklist.filter (fun x => pyIn h x)) idxs hnd hb]

/-- C10 witness: with blacklist `[a.com, b.com]`, deleting entry 1
through the full-blacklist selection changes the saved blacklist to
`[b.com]` and `ah c.com` appends to it, while deleting entry 1 through
the host-filtered selection for `a` leaves the saved blacklist intact
and empties only the copy. -/
theorem C10_witness :
    parseSpecs (some 2) (splitOnChar ',' "1".data) = PR.ok [1] ∧
    (shutdown_saved (cmd_delete_by_number
        (cmd_select_blacklist_all stBW) (some "1")).st).2 = ["b.com"] ∧
    (shutdown_saved (cmd_add_host
        (cmd_select_blacklist_all stBW) (some "c.com")).st).2
      = ["a.com", "b.com", "c.com"] ∧
    (shutdown_saved (cmd_delete_by_number
        (cmd_select_blacklist_by_host "a" stBW) (some "1")).st).2
      = ["a.com", "b.com"] ∧
    (cmd_delete_by_number
        (cmd_select_blacklist_by_host "a" stBW) (some "1")).st.sel
      = SelObj.copy Which.bl [] := by
  have hth := C10_selection_aliasing stBW "1" [1] "a" "c.com" (by decide)
  refine ⟨by decide, ?_, ?_, ?_, ?_⟩
  · exact (hth.1 (by decide) (by decide)).trans (by decide)
  · exact (hth.2.1 (by decide)).trans (by decide)
  · exact ((hth.2.2 (by decide) (by decide)).1).trans rfl
  · exact ((hth.2.2 (by decide) (by decide)).2).trans (by decide)
